import Mathlib

/-!
# StudyGen — formal model of the orchestration core

A shallow embedding of the StudyGen repository's orchestration logic:
the Model Gateway (`callOllama`, `checkOllamaConnection` in
`src/lib/ai-service.ts`), the Content Transformer (`generateFlashcards`,
`generateMCQs` in the same file), the Study Store (the
`localStorage` + `JSON.stringify`/`JSON.parse` persistence used by the
components), and the stateful component logic (`finishQuiz` in
`quiz-generator.tsx`, `addTodo` in `todo-list.tsx`).

JavaScript values that cross the `JSON.parse` boundary are modelled by an
executable `Json` inductive together with an executable printer
(`jsonStringify`, modelling `JSON.stringify`) and parser (`jsonParse`,
modelling `JSON.parse`).  Numbers are modelled as exact decimals
`m * 10 ^ e` (JSON numeric literals are exact decimals; no claim in scope
depends on float rounding).  `Date` values are modelled by their epoch
timestamp.
-/

/-- Model of a JavaScript value produced by `JSON.parse`.  Object fields are
kept as an ordered association list, mirroring JavaScript property insertion
order.  A number token is stored as the exact decimal `m * 10 ^ e`. -/
inductive Json where
  | null : Json
  | bool (b : Bool) : Json
  | num (m : Int) (e : Int) : Json
  | str (s : String) : Json
  | arr (elts : List Json) : Json
  | obj (fields : List (String × Json)) : Json

/-- The characters `JSON.parse` treats as insignificant whitespace. -/
def jsonWs (c : Char) : Bool :=
  c = ' ' || c = '\t' || c = '\n' || c = '\r'

/-- Skip insignificant JSON whitespace. -/
def skipWs (cs : List Char) : List Char :=
  cs.dropWhile jsonWs

/-! ## Decimal digit strings -/

/-- Decimal digits of `n`, most significant first (fuel-driven so that it is
structurally recursive; `natDigits` supplies ample fuel). -/
def natDigitsAux : Nat → Nat → List Char
  | 0, _ => []
  | fuel + 1, n =>
    if n < 10 then [Nat.digitChar n]
    else natDigitsAux fuel (n / 10) ++ [Nat.digitChar (n % 10)]

/-- Decimal digit string of a natural number, no leading zeros. -/
def natDigits (n : Nat) : List Char := natDigitsAux (n + 1) n

/-- Numeric value of a decimal digit character. -/
def digitVal (c : Char) : Nat := c.toNat - 48

/-- Value of a string of decimal digits. -/
def digitsVal (cs : List Char) : Nat :=
  cs.foldl (fun a c => 10 * a + digitVal c) 0

/-- Signed decimal digit string of an integer. -/
def intChars (m : Int) : List Char :=
  if m < 0 then '-' :: natDigits m.natAbs else natDigits m.natAbs

/-- Serialization of the JSON number `m * 10 ^ e`: the mantissa, then an
exponent suffix when `e ≠ 0`. -/
def numChars (m e : Int) : List Char :=
  intChars m ++ (if e = 0 then [] else 'e' :: intChars e)

/-! ## String escaping (model of `JSON.stringify` quoting) -/

/-- Hexadecimal value of one hex digit character (upper or lower case). -/
def hexDigitVal (c : Char) : Option Nat :=
  if c.isDigit then some (c.toNat - 48)
  else if 'a' ≤ c ∧ c ≤ 'f' then some (c.toNat - 87)
  else if 'A' ≤ c ∧ c ≤ 'F' then some (c.toNat - 55)
  else none

/-- How `JSON.stringify` escapes a single character inside a string. -/
def escChar (c : Char) : List Char :=
  if c = '"' then ['\\', '"']
  else if c = '\\' then ['\\', '\\']
  else if c = Char.ofNat 8 then ['\\', 'b']
  else if c = Char.ofNat 12 then ['\\', 'f']
  else if c = '\n' then ['\\', 'n']
  else if c = '\r' then ['\\', 'r']
  else if c = '\t' then ['\\', 't']
  else if c.toNat < 32 then
    ['\\', 'u', '0', '0', Nat.digitChar (c.toNat / 16), Nat.digitChar (c.toNat % 16)]
  else [c]

/-- Escape a whole character sequence. -/
def escList : List Char → List Char
  | [] => []
  | c :: r => escChar c ++ escList r

/-- Meaning of a short escape `\e` in a JSON string literal. -/
def unescape (e : Char) : Option Char :=
  if e = '"' then some '"'
  else if e = '\\' then some '\\'
  else if e = '/' then some '/'
  else if e = 'b' then some (Char.ofNat 8)
  else if e = 'f' then some (Char.ofNat 12)
  else if e = 'n' then some '\n'
  else if e = 'r' then some '\r'
  else if e = 't' then some '\t'
  else none

/-- Parse the body of a JSON string literal (the opening quote already
consumed); returns the decoded characters and the input after the closing
quote.  Raw control characters and unknown escapes are rejected, as in
`JSON.parse`. -/
def parseStrBody : List Char → Option (List Char × List Char)
  | [] => none
  | c :: r =>
    if c = '"' then some ([], r)
    else if c = '\\' then
      match r with
      | [] => none
      | e :: r2 =>
        if e = 'u' then
          match r2 with
          | h1 :: h2 :: h3 :: h4 :: r3 =>
            match hexDigitVal h1, hexDigitVal h2, hexDigitVal h3, hexDigitVal h4 with
            | some a, some b, some a2, some b2 =>
              match parseStrBody r3 with
              | some (s, rest) =>
                some (Char.ofNat (4096 * a + 256 * b + 16 * a2 + b2) :: s, rest)
              | none => none
            | _, _, _, _ => none
          | _ => none
        else
          match unescape e with
          | some u =>
            match parseStrBody r2 with
            | some (s, rest) => some (u :: s, rest)
            | none => none
          | none => none
    else if c.toNat < 32 then none
    else
      match parseStrBody r with
      | some (s, rest) => some (c :: s, rest)
      | none => none

/-! ## Number parsing (model of the `JSON.parse` number grammar) -/

/-- Integer part: either a single `0` or a nonzero digit followed by more
digits (the JSON grammar forbids leading zeros). -/
def parseIntPart (cs : List Char) : Option (Nat × List Char) :=
  match cs with
  | [] => none
  | c :: r =>
    if c = '0' then some (0, r)
    else
      let ds := (c :: r).takeWhile Char.isDigit
      if ds.isEmpty then none
      else some (digitsVal ds, (c :: r).dropWhile Char.isDigit)

/-- Optional fraction part: `.` followed by at least one digit. Returns
(fraction value, number of fraction digits, rest). -/
def parseFrac (cs : List Char) : Option (Nat × Nat × List Char) :=
  match cs with
  | [] => some (0, 0, [])
  | c :: r =>
    if c = '.' then
      let ds := r.takeWhile Char.isDigit
      if ds.isEmpty then none
      else some (digitsVal ds, ds.length, r.dropWhile Char.isDigit)
    else some (0, 0, c :: r)

/-- At least one digit for an exponent. -/
def parseExpDigits (cs : List Char) : Option (Nat × List Char) :=
  let ds := cs.takeWhile Char.isDigit
  if ds.isEmpty then none
  else some (digitsVal ds, cs.dropWhile Char.isDigit)

/-- Optional exponent part: `e`/`E`, an optional sign, then digits. -/
def parseExp (cs : List Char) : Option (Int × List Char) :=
  match cs with
  | [] => some (0, [])
  | c :: r =>
    if c = 'e' ∨ c = 'E' then
      match r with
      | [] => none
      | c2 :: r2 =>
        if c2 = '+' then (parseExpDigits r2).map (fun p => ((p.1 : Int), p.2))
        else if c2 = '-' then (parseExpDigits r2).map (fun p => (-(p.1 : Int), p.2))
        else (parseExpDigits (c2 :: r2)).map (fun p => ((p.1 : Int), p.2))
    else some (0, c :: r)

/-- Parse the unsigned part of a JSON number token (integer part, optional
fraction, optional exponent), the sign already consumed. -/
def parseNumCore (neg : Bool) (cs : List Char) : Option ((Int × Int) × List Char) :=
  match parseIntPart cs with
  | none => none
  | some (ip, r1) =>
    match parseFrac r1 with
    | none => none
    | some (fv, fl, r2) =>
      match parseExp r2 with
      | none => none
      | some (ev, r3) =>
        let mAbs : Nat := ip * 10 ^ fl + fv
        some (((if neg then -(mAbs : Int) else (mAbs : Int)), ev - (fl : Int)), r3)

/-- Parse a JSON number token; yields the exact decimal `(m, e)` with value
`m * 10 ^ e` and the remaining input. -/
def parseNum (cs : List Char) : Option ((Int × Int) × List Char) :=
  match cs with
  | [] => none
  | c :: r => if c = '-' then parseNumCore true r else parseNumCore false (c :: r)

/-! ## The JSON value parser

Fuel-driven mutual recursion: fuel is consumed at every nesting and
iteration step, each of which also consumes at least one input character,
so any fuel beyond the input length is ample. -/

mutual

/-- Parse one JSON value. -/
def parseVal : Nat → List Char → Option (Json × List Char)
  | 0, _ => none
  | f + 1, cs =>
    match skipWs cs with
    | [] => none
    | c :: r =>
      if c = '"' then (parseStrBody r).map (fun p => (Json.str (String.mk p.1), p.2))
      else if c = '[' then (parseItemsFirst f r).map (fun p => (Json.arr p.1, p.2))
      else if c = '\x7b' then (parseFieldsFirst f r).map (fun p => (Json.obj p.1, p.2))
      else if c = 'n' then
        match r with
        | 'u' :: 'l' :: 'l' :: r2 => some (Json.null, r2)
        | _ => none
      else if c = 't' then
        match r with
        | 'r' :: 'u' :: 'e' :: r2 => some (Json.bool true, r2)
        | _ => none
      else if c = 'f' then
        match r with
        | 'a' :: 'l' :: 's' :: 'e' :: r2 => some (Json.bool false, r2)
        | _ => none
      else (parseNum (c :: r)).map (fun p => (Json.num p.1.1 p.1.2, p.2))

/-- Parse the items of an array, the opening `[` already consumed. -/
def parseItemsFirst : Nat → List Char → Option (List Json × List Char)
  | 0, _ => none
  | f + 1, cs =>
    match skipWs cs with
    | [] => none
    | c :: r =>
      if c = ']' then some ([], r)
      else
        match parseVal f (c :: r) with
        | none => none
        | some (v, r1) =>
          match parseItemsRest f r1 with
          | none => none
          | some (vs, r2) => some (v :: vs, r2)

/-- Parse `, value`* `]` after an array item. -/
def parseItemsRest : Nat → List Char → Option (List Json × List Char)
  | 0, _ => none
  | f + 1, cs =>
    match skipWs cs with
    | [] => none
    | c :: r =>
      if c = ']' then some ([], r)
      else if c = ',' then
        match parseVal f r with
        | none => none
        | some (v, r1) =>
          match parseItemsRest f r1 with
          | none => none
          | some (vs, r2) => some (v :: vs, r2)
      else none

/-- Parse the fields of an object, the opening brace already consumed. -/
def parseFieldsFirst : Nat → List Char → Option (List (String × Json) × List Char)
  | 0, _ => none
  | f + 1, cs =>
    match skipWs cs with
    | [] => none
    | c :: r =>
      if c = '\x7d' then some ([], r)
      else if c = '"' then
        match parseStrBody r with
        | none => none
        | some (k, r1) =>
          match skipWs r1 with
          | ':' :: r2 =>
            match parseVal f r2 with
            | none => none
            | some (v, r3) =>
              match parseFieldsRest f r3 with
              | none => none
              | some (fs, r4) => some ((String.mk k, v) :: fs, r4)
          | _ => none
      else none

/-- Parse `, "key" : value`* and the closing brace after an object field. -/
def parseFieldsRest : Nat → List Char → Option (List (String × Json) × List Char)
  | 0, _ => none
  | f + 1, cs =>
    match skipWs cs with
    | [] => none
    | c :: r =>
      if c = '\x7d' then some ([], r)
      else if c = ',' then
        match skipWs r with
        | '"' :: r1 =>
          match parseStrBody r1 with
          | none => none
          | some (k, r2) =>
            match skipWs r2 with
            | ':' :: r3 =>
              match parseVal f r3 with
              | none => none
              | some (v, r4) =>
                match parseFieldsRest f r4 with
                | none => none
                | some (fs, r5) => some ((String.mk k, v) :: fs, r5)
            | _ => none
        | _ => none
      else none

end

/-- Model of `JSON.parse`: parse one value, insist the whole input is
consumed (up to trailing whitespace), reject otherwise (the JavaScript
function throws; the model returns `none`). -/
def jsonParse (s : String) : Option Json :=
  match parseVal (2 * s.data.length + 2) s.data with
  | some (j, rest) => if skipWs rest = [] then some j else none
  | none => none

/-! ## The JSON printer (model of `JSON.stringify`, default options) -/

mutual

/-- Serialize one JSON value, compact form, as `JSON.stringify` emits it. -/
def stringifyVal : Json → List Char
  | Json.null => ['n', 'u', 'l', 'l']
  | Json.bool true => ['t', 'r', 'u', 'e']
  | Json.bool false => ['f', 'a', 'l', 's', 'e']
  | Json.num m e => numChars m e
  | Json.str s => '"' :: (escList s.data ++ ['"'])
  | Json.arr l => '[' :: (stringifyItems l ++ [']'])
  | Json.obj fs => '\x7b' :: (stringifyFields fs ++ ['\x7d'])

/-- Serialize array items, comma separated. -/
def stringifyItems : List Json → List Char
  | [] => []
  | j :: rest => stringifyVal j ++ stringifyMoreItems rest

/-- Serialize the items after the first one. -/
def stringifyMoreItems : List Json → List Char
  | [] => []
  | j :: rest => ',' :: (stringifyVal j ++ stringifyMoreItems rest)

/-- Serialize object fields, comma separated. -/
def stringifyFields : List (String × Json) → List Char
  | [] => []
  | (k, v) :: rest =>
    '"' :: (escList k.data ++ '"' :: ':' :: (stringifyVal v ++ stringifyMoreFields rest))

/-- Serialize the fields after the first one. -/
def stringifyMoreFields : List (String × Json) → List Char
  | [] => []
  | (k, v) :: rest =>
    ',' :: '"' :: (escList k.data ++ '"' :: ':' :: (stringifyVal v ++ stringifyMoreFields rest))

end

/-- Model of `JSON.stringify` on a JavaScript value. -/
def jsonStringify (j : Json) : String := String.mk (stringifyVal j)

/-! ## Shared JavaScript string helpers -/

/-- JavaScript whitespace for `trim` and the `\s` regex class (modelled by
the Unicode whitespace predicate on scalar values). -/
def jsWs (c : Char) : Bool := c.isWhitespace

/-- Model of `String.prototype.trim`. -/
def trimList (cs : List Char) : List Char :=
  ((cs.dropWhile jsWs).reverse.dropWhile jsWs).reverse

/-- Model of `String.prototype.trim` on `String`. -/
def jsTrim (s : String) : String := String.mk (trimList s.data)

/-- Model of `String.prototype.split` with a one-character separator:
every separator occurrence cuts, empty segments are kept. -/
def splitOnChar (sep : Char) : List Char → List (List Char)
  | [] => [[]]
  | c :: r =>
    if c = sep then [] :: splitOnChar sep r
    else
      match splitOnChar sep r with
      | [] => [[c]]
      | l :: ls => (c :: l) :: ls

/-! ## Content Transformer (`src/lib/ai-service.ts`)

The source functions build a prompt, await `callOllama`, and then parse the
completion text.  The claims quantify over the completion text, so the
parsing stage is modelled as a pure function of that text. -/

/-- Model of `response.match(/\[[\s\S]*\]/)`: the leftmost-greedy match runs
from the first `[` to the last `]` after it; no such pair means no match. -/
def extractBracket (cs : List Char) : Option (List Char) :=
  match cs.dropWhile (fun c => c != '[') with
  | '[' :: rest =>
    let upto := (rest.reverse.dropWhile (fun c => c != ']')).reverse
    if upto.isEmpty then none else some ('[' :: upto)
  | _ => none

/-- Model of `line.replace(/^\d+\.\s*/, '')`: strip a leading run of digits
followed by a dot and any whitespace; leave the line unchanged when the
pattern does not match (greedy `\d+` cannot profit from backtracking, since
giving a digit back leaves a digit, not the required dot, at the cursor). -/
def stripOrdinal (cs : List Char) : List Char :=
  let ds := cs.takeWhile Char.isDigit
  if ds.isEmpty then cs
  else
    match cs.dropWhile Char.isDigit with
    | '.' :: r => r.dropWhile jsWs
    | _ => cs

/-- `response.split('\n').filter(line => line.trim())` — the non-blank lines
of the completion (a line is kept when its trimmed form is non-empty, i.e.
truthy). -/
def linesOf (s : String) : List String :=
  ((splitOnChar '\n' s.data).map String.mk).filter (fun l => jsTrim l ≠ "")

/-- The manual-pairing loop of `generateFlashcards` (lines 129–136): walk the
non-blank lines two at a time, making `(front, back)` cards; a trailing
unpaired line is dropped (`lines[i + 1]` is undefined, hence falsy). -/
def pairLines : List String → List Json
  | a :: b :: rest =>
    Json.obj [("front", Json.str (jsTrim (String.mk (stripOrdinal a.data)))),
              ("back", Json.str (jsTrim b))] :: pairLines rest
  | _ => []

/-- The fixed placeholder flashcards returned on any parsing exception
(`generateFlashcards`, lines 142–151). -/
def fallbackFlashcards : List Json :=
  [Json.obj [("front", Json.str "What is the main topic of the provided content?"),
             ("back", Json.str "The content covers key concepts and information that can be studied and reviewed.")],
   Json.obj [("front", Json.str "What are the key takeaways from this material?"),
             ("back", Json.str "The material provides important insights and knowledge for understanding the subject matter.")]]

/-- Parsing stage of `generateFlashcards` (`ai-service.ts` lines 116–152)
applied to the completion text: extract the first bracketed substring and
`JSON.parse` it, returning the parsed array verbatim; with no bracketed
substring, pair the non-blank lines manually and keep at most 5 cards; when
`JSON.parse` throws, return the fixed placeholder cards.  (The `some _` arm
is unreachable: the extracted text starts with `[`, so a successful parse is
an array.) -/
def generateFlashcards (response : String) : List Json :=
  match extractBracket response.data with
  | some sub =>
    match jsonParse (String.mk sub) with
    | some (Json.arr l) => l
    | some _ => fallbackFlashcards
    | none => fallbackFlashcards
  | none => (pairLines (linesOf response)).take 5

/-- The fixed questions returned when the completion has no bracketed
substring (`generateMCQs`, lines 190–213). -/
def mcqFallbackNoMatch : List Json :=
  [Json.obj [("question", Json.str "Based on the provided content, what is the main focus?"),
             ("options", Json.arr [Json.str "Key concepts and important information",
                                   Json.str "Irrelevant details",
                                   Json.str "Random facts",
                                   Json.str "Unrelated topics"]),
             ("correctAnswer", Json.num 0 0),
             ("explanation", Json.str "The content focuses on key concepts and important information relevant to the subject matter.")],
   Json.obj [("question", Json.str "What can be learned from studying this material?"),
             ("options", Json.arr [Json.str "Nothing useful",
                                   Json.str "Important knowledge and insights",
                                   Json.str "Only basic facts",
                                   Json.str "Confusing information"]),
             ("correctAnswer", Json.num 1 0),
             ("explanation", Json.str "The material provides important knowledge and insights that enhance understanding of the topic.")]]

/-- The fixed question returned when parsing raises (`generateMCQs`,
lines 217–229). -/
def mcqFallbackError : List Json :=
  [Json.obj [("question", Json.str "What is the primary purpose of this study material?"),
             ("options", Json.arr [Json.str "To provide educational content",
                                   Json.str "To confuse students",
                                   Json.str "To waste time",
                                   Json.str "To provide entertainment"]),
             ("correctAnswer", Json.num 0 0),
             ("explanation", Json.str "The primary purpose is to provide educational content for learning and understanding.")]]

/-- Parsing stage of `generateMCQs` (`ai-service.ts` lines 180–230) applied
to the completion text: extract the first bracketed substring and
`JSON.parse` it, returning the parsed array verbatim; with no bracketed
substring, return the fixed two-question set; when `JSON.parse` throws,
return the fixed one-question set. -/
def generateMCQs (response : String) : List Json :=
  match extractBracket response.data with
  | some sub =>
    match jsonParse (String.mk sub) with
    | some (Json.arr l) => l
    | some _ => mcqFallbackError
    | none => mcqFallbackError
  | none => mcqFallbackNoMatch

/-- Well-shaped flashcard record: an object with exactly the string fields
`front` and `back`. -/
def cardShaped : Json → Bool
  | Json.obj [("front", Json.str _), ("back", Json.str _)] => true
  | _ => false

/-- Well-shaped flashcard record with non-empty `front` and `back`. -/
def cardNonEmpty : Json → Bool
  | Json.obj [("front", Json.str f), ("back", Json.str b)] =>
    !(f == "") && !(b == "")
  | _ => false

/-- Well-shaped quiz-question record: an object with a string `question`,
exactly 4 string `options`, an integer `correctAnswer` in `[0, 3]`, and a
string `explanation`. -/
def mcqShaped : Json → Bool
  | Json.obj [("question", Json.str _), ("options", Json.arr opts),
              ("correctAnswer", Json.num m e), ("explanation", Json.str _)] =>
    opts.length == 4 &&
    opts.all (fun o => match o with | Json.str _ => true | _ => false) &&
    e == 0 && decide (0 ≤ m ∧ m ≤ 3)
  | _ => false

/-! ## Flashcard metadata augmentation (`file-upload.tsx` lines 377–384) -/

/-- The flashcard difficulty setting. -/
inductive Difficulty where
  | easy : Difficulty
  | medium : Difficulty
  | hard : Difficulty

/-- The string a difficulty serializes to. -/
def Difficulty.toStr : Difficulty → String
  | Difficulty.easy => "easy"
  | Difficulty.medium => "medium"
  | Difficulty.hard => "hard"

/-- `tags.split(',').map(tag => tag.trim()).filter(Boolean)`. -/
def splitTags (tags : String) : List String :=
  ((splitOnChar ',' tags.data).map (fun l => jsTrim (String.mk l))).filter
    (fun t => t ≠ "")

/-- JavaScript object-literal spread semantics `{...fields, ...meta}`:
keys already present keep their position and take the overriding value,
new keys are appended in order. -/
def spreadOverride (fields meta : List (String × Json)) : List (String × Json) :=
  fields.map (fun p =>
    match meta.lookup p.1 with
    | some v => (p.1, v)
    | none => p) ++
  meta.filter (fun m => (fields.lookup m.1).isNone)

/-- One step of `cardsWithMetadata` (`file-upload.tsx` lines 378–384):
`{...card, id, tags, createdAt, difficulty}` with
`id = Date.now().toString() + Math.random().toString(36)`; `Date.now()` and
the random suffix are passed in, `new Date()` is modelled by the timestamp.
A parsed card that is not an object spreads no enumerable own fields of
interest, leaving just the metadata (last arm). -/
def cardWithMetadata (now : Nat) (rand tags : String) (difficulty : Difficulty)
    (card : Json) : Json :=
  let meta : List (String × Json) :=
    [("id", Json.str (toString now ++ rand)),
     ("tags", Json.arr ((splitTags tags).map Json.str)),
     ("createdAt", Json.num (now : Int) 0),
     ("difficulty", Json.str difficulty.toStr)]
  match card with
  | Json.obj fields => Json.obj (spreadOverride fields meta)
  | _ => Json.obj meta

/-! ## Model Gateway (`src/lib/ai-service.ts` lines 54–81 and 234–241) -/

/-- Outcome of one `fetch` call: the promise rejects (endpoint unreachable),
or a response arrives with an HTTP status and a body that either is valid
JSON or makes `response.json()` reject (`body = none`). -/
inductive FetchOutcome where
  | networkError : FetchOutcome
  | response (status : Nat) (body : Option Json) : FetchOutcome

/-- `Response.ok`: status in the inclusive range 200–299. -/
def httpOk (status : Nat) : Bool := 200 ≤ status && status ≤ 299

/-- The message of the error `callOllama` throws on any failure
(line 79 of `ai-service.ts`). -/
def connectivityMsg : String :=
  "Failed to connect to Ollama. Make sure Ollama is running on localhost:11434"

/-- JavaScript property access `data.response` on a parsed JSON value:
`undefined` (`none`) unless the value is an object with the key, in which
case the last occurrence wins. -/
def jsField (j : Json) (key : String) : Option Json :=
  match j with
  | Json.obj fields => fields.reverse.lookup key
  | _ => none

/-- Model of `callOllama` (lines 54–81) as a function of the fetch outcome:
the `try` block throws on a rejected fetch, on `!response.ok` (line 72) and
on a malformed JSON body, and the surrounding `catch` converts every one of
those into the single connectivity error; a 2xx response with a JSON body
yields `data.response`. -/
def callOllama (outcome : FetchOutcome) : Except String (Option Json) :=
  match outcome with
  | FetchOutcome.networkError => Except.error connectivityMsg
  | FetchOutcome.response status body =>
    if httpOk status then
      match body with
      | some j => Except.ok (jsField j "response")
      | none => Except.error connectivityMsg
    else Except.error connectivityMsg

/-- Model of `checkOllamaConnection` (lines 234–241): `response.ok` of the
probe, `false` when the fetch rejects; the `try`/`catch` makes the function
total, so it never throws. -/
def checkOllamaConnection (outcome : FetchOutcome) : Bool :=
  match outcome with
  | FetchOutcome.networkError => false
  | FetchOutcome.response status _ => httpOk status

/-! ## Quiz completion (`quiz-generator.tsx` lines 122–147) -/

/-- `MCQuestion` of `src/types/index.ts` (`createdAt : Date` modelled by the
epoch timestamp). -/
structure MCQuestion where
  id : String
  question : String
  options : List String
  correctAnswer : Int
  explanation : String
  difficulty : Difficulty
  tags : List String
  createdAt : Nat

/-- One element of `QuizResult.answers`. -/
structure QuizAnswer where
  questionId : String
  selectedAnswer : Int
  correct : Bool

/-- `QuizResult` of `src/types/index.ts`. -/
structure QuizResult where
  id : String
  score : Nat
  totalQuestions : Nat
  answers : List QuizAnswer
  completedAt : Nat

/-- Model of `finishQuiz` (lines 122–147).  `selectedAnswers` is the
component's partial map from question id to chosen option;
`selectedAnswers[id] ?? -1` is `getD (-1)`, and the strict comparison
`selectedAnswers[id] === correctAnswer` is `false` when the entry is
`undefined`. -/
def finishQuiz (questions : List MCQuestion)
    (selectedAnswers : String → Option Int) (now : Nat) : QuizResult :=
  let answers := questions.map (fun q =>
    { questionId := q.id
      selectedAnswer := (selectedAnswers q.id).getD (-1)
      correct := match selectedAnswers q.id with
                 | some a => a == q.correctAnswer
                 | none => false : QuizAnswer })
  let score := (answers.filter (fun a => a.correct)).length
  { id := toString now
    score := score
    totalQuestions := questions.length
    answers := answers
    completedAt := now }

/-! ## To-do list (`todo-list.tsx` lines 37–49) -/

/-- `TodoItem` of `src/types/index.ts`. -/
structure TodoItem where
  id : String
  text : String
  completed : Bool
  createdAt : Nat

/-- Model of `addTodo`: a blank (trimmed-empty, hence falsy) input returns
early and changes nothing; otherwise one item is prepended with
`id = Date.now().toString()`, the trimmed text, and `completed: false`. -/
def addTodo (now : Nat) (newTodo : String) (todos : List TodoItem) : List TodoItem :=
  if jsTrim newTodo = "" then todos
  else
    { id := toString now
      text := jsTrim newTodo
      completed := false
      createdAt := now } :: todos

/-! ## Study Store

Every component persists a collection with
`localStorage.setItem(key, JSON.stringify(records))` and restores it with
`JSON.parse(localStorage.getItem(key))` guarded by a `try`/`catch` that
keeps the empty initial state on malformed content
(e.g. `todo-list.tsx` lines 21–35, `quiz-generator.tsx` lines 30–58). -/

/-- Saving a collection: serialize the array of records. -/
def saveCollection (records : List Json) : String :=
  jsonStringify (Json.arr records)

/-- Loading a collection: an absent key or content that does not parse back
to an array leaves the state at its empty initial value. -/
def loadCollection (stored : Option String) : List Json :=
  match stored with
  | none => []
  | some s =>
    match jsonParse s with
    | some (Json.arr l) => l
    | _ => []

/-! ## Concrete data for the scenario claims -/

/-- The completion text of the C4 scenario:
`[{"front":"Q1","back":"A1"},{"front":"Q2","back":"A2"}]`. -/
def c4Completion : String :=
  "[\x7b\"front\":\"Q1\",\"back\":\"A1\"\x7d,\x7b\"front\":\"Q2\",\"back\":\"A2\"\x7d]"

/-- A three-question set for the quiz scenario. -/
def demoQuestions : List MCQuestion :=
  [{ id := "q1", question := "first", options := ["a", "b", "c", "d"],
     correctAnswer := 0, explanation := "e1", difficulty := Difficulty.medium,
     tags := [], createdAt := 0 },
   { id := "q2", question := "second", options := ["a", "b", "c", "d"],
     correctAnswer := 1, explanation := "e2", difficulty := Difficulty.medium,
     tags := [], createdAt := 0 },
   { id := "q3", question := "third", options := ["a", "b", "c", "d"],
     correctAnswer := 2, explanation := "e3", difficulty := Difficulty.medium,
     tags := [], createdAt := 0 }]

/-- Selections answering only the first two of `demoQuestions` (the first
correctly, the second incorrectly). -/
def demoSelected : String → Option Int := fun id =>
  if id = "q1" then some 0
  else if id = "q2" then some 3
  else none

/-! ## Fuel accounting for the round-trip proof -/

/-- A continuation after a printed number token that cannot extend the
token: empty, or starting with something that is not a digit, a decimal
point, or an exponent marker.  Every separator the printer emits after a
value (`,`, `]`, the closing brace) qualifies. -/
def delimOk (cs : List Char) : Bool :=
  match cs with
  | [] => true
  | c :: _ => !(c.isDigit || c = '.' || c = 'e' || c = 'E')

mutual

/-- Fuel consumed by `parseVal` on the printed form of a value. -/
def jsize : Json → Nat
  | Json.null => 1
  | Json.bool _ => 1
  | Json.num _ _ => 1
  | Json.str _ => 1
  | Json.arr l => 1 + itemsFSize l
  | Json.obj fs => 1 + fieldsFSize fs

/-- Fuel consumed by `parseItemsFirst` on printed items. -/
def itemsFSize : List Json → Nat
  | [] => 1
  | j :: rest => 1 + jsize j + itemsRSize rest

/-- Fuel consumed by `parseItemsRest` on printed items. -/
def itemsRSize : List Json → Nat
  | [] => 1
  | j :: rest => 1 + jsize j + itemsRSize rest

/-- Fuel consumed by `parseFieldsFirst` on printed fields. -/
def fieldsFSize : List (String × Json) → Nat
  | [] => 1
  | (_, v) :: rest => 1 + jsize v + fieldsRSize rest

/-- Fuel consumed by `parseFieldsRest` on printed fields. -/
def fieldsRSize : List (String × Json) → Nat
  | [] => 1
  | (_, v) :: rest => 1 + jsize v + fieldsRSize rest

end

/-! # Theorems -/

/-! ## Helper lemmas -/

/-- Every record built by the manual-pairing fallback is an object with
string fields `front` and `back`. -/
theorem pairLines_all_shaped : ∀ ls, (pairLines ls).all cardShaped = true
  | [] => rfl
  | [_] => rfl
  | _ :: _ :: rest => by
    simp only [pairLines, List.all_cons, Bool.and_eq_true]
    exact ⟨rfl, pairLines_all_shaped rest⟩

/-! ## C8 — manual line-pairing scenario -/

/-- C8: on the four-line completion `"1. Q1\nA1\n2. Q2\nA2"`, which has no
bracketed substring, the manual pairing fallback of `generateFlashcards`
pairs consecutive non-blank lines and strips the ordinal prefix, yielding
exactly the two records of the claim. -/
theorem generateFlashcards_line_pairing :
    generateFlashcards "1. Q1\nA1\n2. Q2\nA2" =
      [Json.obj [("front", Json.str "Q1"), ("back", Json.str "A1")],
       Json.obj [("front", Json.str "Q2"), ("back", Json.str "A2")]] := by
  rfl

/-! ## C4 — JSON-array scenario with metadata augmentation -/

/-- C4: on the completion text
`[{"front":"Q1","back":"A1"},{"front":"Q2","back":"A2"}]`,
`generateFlashcards` returns exactly those two records, and the component's
`cardsWithMetadata` map augments each with an identifier, the timestamp and
the requested difficulty while preserving `front` and `back`. -/
theorem generateFlashcards_c4_scenario (now : Nat) (rand tags : String)
    (d : Difficulty) :
    generateFlashcards c4Completion =
      [Json.obj [("front", Json.str "Q1"), ("back", Json.str "A1")],
       Json.obj [("front", Json.str "Q2"), ("back", Json.str "A2")]] ∧
    (generateFlashcards c4Completion).map (cardWithMetadata now rand tags d) =
      [Json.obj [("front", Json.str "Q1"), ("back", Json.str "A1"),
                 ("id", Json.str (toString now ++ rand)),
                 ("tags", Json.arr ((splitTags tags).map Json.str)),
                 ("createdAt", Json.num (now : Int) 0),
                 ("difficulty", Json.str d.toStr)],
       Json.obj [("front", Json.str "Q2"), ("back", Json.str "A2"),
                 ("id", Json.str (toString now ++ rand)),
                 ("tags", Json.arr ((splitTags tags).map Json.str)),
                 ("createdAt", Json.num (now : Int) 0),
                 ("difficulty", Json.str d.toStr)]] := by
  have h : generateFlashcards c4Completion =
      [Json.obj [("front", Json.str "Q1"), ("back", Json.str "A1")],
       Json.obj [("front", Json.str "Q2"), ("back", Json.str "A2")]] := by rfl
  refine ⟨h, ?_⟩
  rw [h]
  simp [cardWithMetadata, spreadOverride, List.lookup]

/-! ## C1 — generateFlashcards output envelope -/

/-- C1 (counterexample): the claim "between 1 and 5 items with non-empty
front and back for every completion" is false — on the completion `"[]"`
the parsed array is returned verbatim and is empty. -/
theorem generateFlashcards_not_always_1_to_5 :
    ¬ (∀ s : String,
        1 ≤ (generateFlashcards s).length ∧
        (generateFlashcards s).length ≤ 5 ∧
        (generateFlashcards s).all cardNonEmpty = true) := by
  intro h
  have h1 := (h "[]").1
  rw [show generateFlashcards "[]" = [] from rfl] at h1
  exact absurd h1 (by decide)

/-- C1 (amended): when no bracketed substring exists the manual pairing
path returns at most 5 well-shaped records; when the bracketed substring
fails to parse the fixed two placeholder cards (non-empty front and back)
are returned; but when it parses as a JSON array that array is returned
verbatim, with no bound or shape validation. -/
theorem generateFlashcards_amended (s : String) :
    (extractBracket s.data = none →
      (generateFlashcards s).length ≤ 5 ∧
      (generateFlashcards s).all cardShaped = true) ∧
    (∀ sub, extractBracket s.data = some sub → jsonParse (String.mk sub) = none →
      generateFlashcards s = fallbackFlashcards) ∧
    (∀ sub l, extractBracket s.data = some sub →
      jsonParse (String.mk sub) = some (Json.arr l) →
      generateFlashcards s = l) ∧
    fallbackFlashcards.length = 2 ∧
    fallbackFlashcards.all cardNonEmpty = true := by
  refine ⟨?_, ?_, ?_, rfl, by rfl⟩
  · intro hnone
    unfold generateFlashcards
    rw [hnone]
    constructor
    · exact List.length_take_le 5 _
    · rw [List.all_eq_true]
      intro x hx
      have hmem := List.take_subset 5 _ hx
      have hall := pairLines_all_shaped (linesOf s)
      rw [List.all_eq_true] at hall
      exact hall x hmem
  · intro sub hsub hparse
    simp only [generateFlashcards, hsub, hparse]
  · intro sub l hsub hparse
    simp only [generateFlashcards, hsub, hparse]

/-- C1 (amended) witness: a completion whose bracketed substring is not
valid JSON yields the placeholder cards; a bracketless completion yields at
most 5 records. -/
theorem generateFlashcards_amended_witness :
    generateFlashcards "[broken]" = fallbackFlashcards ∧
    (generateFlashcards "1. Q\nA").length ≤ 5 := by
  exact ⟨(generateFlashcards_amended "[broken]").2.1 "[broken]".data rfl rfl,
         ((generateFlashcards_amended "1. Q\nA").1 rfl).1⟩

/-! ## C2 — generateMCQs output envelope -/

/-- C2 (counterexample): the claim "at least 1 item with exactly 4 options
and a correctAnswer in [0,3] for every completion" is false — on the
completion `"[]"` the parsed array is returned verbatim and is empty. -/
theorem generateMCQs_not_always_wellformed :
    ¬ (∀ s : String,
        1 ≤ (generateMCQs s).length ∧
        (generateMCQs s).all mcqShaped = true) := by
  intro h
  have h1 := (h "[]").1
  rw [show generateMCQs "[]" = [] from rfl] at h1
  exact absurd h1 (by decide)

/-- C2 (amended): with no bracketed substring the fixed two-question
placeholder set is returned; when the bracketed substring fails to parse the
fixed one-question set is returned; both placeholder sets consist of records
with exactly 4 options and a correctAnswer in [0,3]; but a successfully
parsed JSON array is returned verbatim with no validation. -/
theorem generateMCQs_amended (s : String) :
    (extractBracket s.data = none → generateMCQs s = mcqFallbackNoMatch) ∧
    (∀ sub, extractBracket s.data = some sub → jsonParse (String.mk sub) = none →
      generateMCQs s = mcqFallbackError) ∧
    (∀ sub l, extractBracket s.data = some sub →
      jsonParse (String.mk sub) = some (Json.arr l) →
      generateMCQs s = l) ∧
    (mcqFallbackNoMatch.length = 2 ∧ mcqFallbackNoMatch.all mcqShaped = true) ∧
    (mcqFallbackError.length = 1 ∧ mcqFallbackError.all mcqShaped = true) := by
  refine ⟨?_, ?_, ?_, ⟨rfl, by rfl⟩, ⟨rfl, by rfl⟩⟩
  · intro hnone
    unfold generateMCQs
    rw [hnone]
  · intro sub hsub hparse
    simp only [generateMCQs, hsub, hparse]
  · intro sub l hsub hparse
    simp only [generateMCQs, hsub, hparse]

/-- C2 (amended) witness: a bracketless completion yields the fixed
two-question placeholder set. -/
theorem generateMCQs_amended_witness :
    generateMCQs "no brackets here" = mcqFallbackNoMatch ∧
    generateMCQs "[bad json" = mcqFallbackNoMatch := by
  exact ⟨(generateMCQs_amended "no brackets here").1 rfl,
         (generateMCQs_amended "[bad json").1 rfl⟩

/-! ## C3 — finishQuiz answer records -/

/-- C3: a finished quiz has one answer record per question; an unanswered
question gets the sentinel `-1` and `correct = false`; and every correctness
flag is recomputed by comparing the stored selection with the question's
`correctAnswer` — it is a function of the selection map and the stored
questions only, never of any client-supplied flag. -/
theorem finishQuiz_answers_spec (qs : List MCQuestion)
    (sel : String → Option Int) (now : Nat) (i : Nat) (h : i < qs.length) :
    (finishQuiz qs sel now).answers.length = qs.length ∧
    (sel (qs.get ⟨i, h⟩).id = none →
      ((finishQuiz qs sel now).answers.get ⟨i, by
        simpa [finishQuiz] using h⟩).selectedAnswer = -1 ∧
      ((finishQuiz qs sel now).answers.get ⟨i, by
        simpa [finishQuiz] using h⟩).correct = false) ∧
    ((finishQuiz qs sel now).answers.get ⟨i, by
      simpa [finishQuiz] using h⟩).correct =
      ((sel (qs.get ⟨i, h⟩).id).map
        (fun a => a == (qs.get ⟨i, h⟩).correctAnswer)).getD false := by
  refine ⟨by simp [finishQuiz], ?_, ?_⟩
  · intro hnone
    rw [List.get_eq_getElem] at hnone
    constructor
    · simp [finishQuiz, hnone]
    · simp [finishQuiz, hnone]
  · simp only [List.get_eq_getElem]
    cases hsel : sel qs[i].id with
    | none => simp [finishQuiz, hsel]
    | some a => simp [finishQuiz, hsel]

/-- C3 witness: with a three-question set of which only the first two are
answered, the third answer record carries the sentinel `-1` and a false
correctness flag, and the result has three answer records. -/
theorem finishQuiz_answers_spec_witness :
    (finishQuiz demoQuestions demoSelected 7).answers.length = 3 ∧
    ((finishQuiz demoQuestions demoSelected 7).answers.get ⟨2, by
      decide⟩).selectedAnswer = -1 ∧
    ((finishQuiz demoQuestions demoSelected 7).answers.get ⟨2, by
      decide⟩).correct = false := by
  have h := finishQuiz_answers_spec demoQuestions demoSelected 7 2 (by decide)
  exact ⟨h.1, h.2.1 (by decide)⟩

/-! ## C9 — score invariant -/

/-- C9: the score of a finished quiz equals the number of answer records
whose correctness flag is true, and is bounded by the total question count
(it is a `Nat`, hence also nonnegative). -/
theorem finishQuiz_score_spec (qs : List MCQuestion)
    (sel : String → Option Int) (now : Nat) :
    (finishQuiz qs sel now).score =
      ((finishQuiz qs sel now).answers.filter (fun a => a.correct)).length ∧
    (finishQuiz qs sel now).score ≤ (finishQuiz qs sel now).totalQuestions := by
  refine ⟨rfl, ?_⟩
  simp only [finishQuiz]
  exact le_trans (List.length_filter_le _ _) (by simp)

/-! ## C10 — addTodo -/

/-- C10: a blank (trimmed-empty) input leaves the to-do list unchanged;
non-blank input prepends exactly one item carrying the trimmed text with
`completed = false`, the existing items unchanged behind it. -/
theorem addTodo_spec (now : Nat) (s : String) (todos : List TodoItem) :
    (jsTrim s = "" → addTodo now s todos = todos) ∧
    (jsTrim s ≠ "" →
      addTodo now s todos =
        { id := toString now, text := jsTrim s, completed := false,
          createdAt := now } :: todos) := by
  constructor
  · intro h; simp [addTodo, h]
  · intro h; simp [addTodo, h]

/-- C10 witness: a whitespace-only input adds nothing; a padded input adds
one item with the trimmed text and `completed = false`. -/
theorem addTodo_spec_witness :
    addTodo 1 "   " [] = [] ∧
    addTodo 2 " buy milk " [] =
      [{ id := "2", text := "buy milk", completed := false, createdAt := 2 }] := by
  refine ⟨(addTodo_spec 1 "   " []).1 (by decide), ?_⟩
  have h := (addTodo_spec 2 " buy milk " []).2 (by decide)
  rw [h]
  rfl

/-! ## C5 — callOllama connectivity errors -/

/-- C5: `callOllama` fails with the connectivity error whenever the fetch
rejects or the response status is not 2xx (the inner status error is caught
and replaced by the same message); the message names `localhost:11434`; and
a 2xx response with a JSON body yields its `response` field. -/
theorem callOllama_spec (o : FetchOutcome) :
    (o = FetchOutcome.networkError → callOllama o = Except.error connectivityMsg) ∧
    (∀ status body, o = FetchOutcome.response status body → httpOk status = false →
      callOllama o = Except.error connectivityMsg) ∧
    (∀ status j, o = FetchOutcome.response status (some j) → httpOk status = true →
      callOllama o = Except.ok (jsField j "response")) ∧
    "localhost:11434".data <:+: connectivityMsg.data := by
  refine ⟨?_, ?_, ?_, ?_⟩
  · intro h; rw [h]; rfl
  · intro status body h hbad
    rw [h]
    simp [callOllama, hbad]
  · intro status j h hok
    rw [h]
    simp [callOllama, hok]
  · exact ⟨"Failed to connect to Ollama. Make sure Ollama is running on ".data,
      [], by decide⟩

/-- C5 witness: a rejected fetch and a 500 status both produce the
connectivity error; a 200 response yields the `response` field. -/
theorem callOllama_spec_witness :
    callOllama FetchOutcome.networkError = Except.error connectivityMsg ∧
    callOllama (FetchOutcome.response 500 (some Json.null)) =
      Except.error connectivityMsg ∧
    callOllama (FetchOutcome.response 200
        (some (Json.obj [("response", Json.str "ok")]))) =
      Except.ok (some (Json.str "ok")) := by
  refine ⟨(callOllama_spec _).1 rfl, ?_, ?_⟩
  · exact (callOllama_spec _).2.1 500 (some Json.null) rfl (by decide)
  · have h := (callOllama_spec _).2.2.1 200 (Json.obj [("response", Json.str "ok")])
      rfl (by decide)
    rw [h]
    rfl

/-! ## C7 — checkOllamaConnection never throws -/

/-- C7: `checkOllamaConnection` is a total boolean function of the probe
outcome: `false` when the fetch rejects, and `response.ok` otherwise — in
particular `false` for every non-2xx status. -/
theorem checkOllamaConnection_spec (o : FetchOutcome) :
    (o = FetchOutcome.networkError → checkOllamaConnection o = false) ∧
    (∀ status body, o = FetchOutcome.response status body →
      checkOllamaConnection o = httpOk status) ∧
    (∀ status body, o = FetchOutcome.response status body → httpOk status = false →
      checkOllamaConnection o = false) := by
  refine ⟨?_, ?_, ?_⟩
  · intro h; rw [h]; rfl
  · intro status body h; rw [h]; rfl
  · intro status body h hbad; rw [h]; simpa [checkOllamaConnection] using hbad

/-- C7 witness: an unreachable endpoint and a 404 status both yield
`false`; a 200 status yields `true`. -/
theorem checkOllamaConnection_spec_witness :
    checkOllamaConnection FetchOutcome.networkError = false ∧
    checkOllamaConnection (FetchOutcome.response 404 none) = false ∧
    checkOllamaConnection (FetchOutcome.response 200 none) = true := by
  refine ⟨(checkOllamaConnection_spec _).1 rfl, ?_, ?_⟩
  · exact (checkOllamaConnection_spec _).2.2 404 none rfl (by decide)
  · have h := (checkOllamaConnection_spec _).2.1 200 none rfl
    rw [h]
    decide

/-! ## Round-trip: digit strings -/

/-- A character that is a decimal digit differs from any character that is
not. -/
theorem ne_of_isDigit {c d : Char} (h : c.isDigit = true)
    (hd : d.isDigit = false) : c ≠ d := by
  intro he
  rw [he, hd] at h
  exact Bool.false_ne_true h

/-- Decimal digits are not JSON whitespace. -/
theorem jsonWs_of_isDigit {c : Char} (h : c.isDigit = true) : jsonWs c = false := by
  have h1 : c ≠ ' ' := ne_of_isDigit h (by decide)
  have h2 : c ≠ '\t' := ne_of_isDigit h (by decide)
  have h3 : c ≠ '\n' := ne_of_isDigit h (by decide)
  have h4 : c ≠ '\r' := ne_of_isDigit h (by decide)
  simp [jsonWs, h1, h2, h3, h4]

theorem digitVal_digitChar {n : Nat} (h : n < 10) :
    digitVal (Nat.digitChar n) = n := by
  interval_cases n <;> rfl

theorem digitChar_isDigit {n : Nat} (h : n < 10) :
    (Nat.digitChar n).isDigit = true := by
  interval_cases n <;> rfl

theorem digitChar_ne_zero {n : Nat} (h : n < 10) (h0 : 0 < n) :
    Nat.digitChar n ≠ '0' := by
  interval_cases n <;> decide

theorem digitsVal_append (xs : List Char) (c : Char) :
    digitsVal (xs ++ [c]) = 10 * digitsVal xs + digitVal c := by
  simp [digitsVal, List.foldl_append]

/-- Correctness of the digit printer: value, digit-ness, nonemptiness, and
a nonzero leading digit for positive numbers. -/
theorem natDigitsAux_spec : ∀ f n, n < f →
    digitsVal (natDigitsAux f n) = n ∧
    (∀ c ∈ natDigitsAux f n, c.isDigit = true) ∧
    (∀ c cs, natDigitsAux f n = c :: cs → (0 < n → c ≠ '0')) ∧
    natDigitsAux f n ≠ []
  | 0, n, h => absurd h (by omega)
  | f + 1, n, h => by
    by_cases h10 : n < 10
    · unfold natDigitsAux
      rw [if_pos h10]
      refine ⟨?_, ?_, ?_, by simp⟩
      · show digitsVal ([] ++ [Nat.digitChar n]) = n
        rw [digitsVal_append, digitVal_digitChar h10]
        simp [digitsVal]
      · intro c hc
        simp only [List.mem_singleton] at hc
        rw [hc]
        exact digitChar_isDigit h10
      · intro c cs hcons hpos
        have hh : Nat.digitChar n = c := by
          simpa using congrArg (fun l => l.head?) hcons
        rw [← hh]
        exact digitChar_ne_zero h10 hpos
    · have hdiv : n / 10 < f := by omega
      have ih := natDigitsAux_spec f (n / 10) hdiv
      unfold natDigitsAux
      rw [if_neg h10]
      obtain ⟨c0, cs0, hcons0⟩ : ∃ c0 cs0, natDigitsAux f (n / 10) = c0 :: cs0 := by
        cases hh : natDigitsAux f (n / 10) with
        | nil => exact absurd hh ih.2.2.2
        | cons c0 cs0 => exact ⟨c0, cs0, rfl⟩
      refine ⟨?_, ?_, ?_, by simp [hcons0]⟩
      · rw [digitsVal_append, ih.1, digitVal_digitChar (by omega)]
        omega
      · intro c hc
        rw [List.mem_append] at hc
        rcases hc with hc | hc
        · exact ih.2.1 c hc
        · simp only [List.mem_singleton] at hc
          rw [hc]
          exact digitChar_isDigit (by omega)
      · intro c cs hcons hpos
        rw [hcons0] at hcons
        have hh : c0 = c := by simpa using congrArg (fun l => l.head?) hcons
        rw [← hh]
        exact ih.2.2.1 c0 cs0 hcons0 (by omega)

theorem natDigits_val (n : Nat) : digitsVal (natDigits n) = n :=
  (natDigitsAux_spec (n + 1) n (by omega)).1

theorem natDigits_all_digit (n : Nat) : ∀ c ∈ natDigits n, c.isDigit = true :=
  (natDigitsAux_spec (n + 1) n (by omega)).2.1

theorem natDigits_ne_nil (n : Nat) : natDigits n ≠ [] :=
  (natDigitsAux_spec (n + 1) n (by omega)).2.2.2

theorem natDigits_head_ne_zero (n : Nat) (c : Char) (cs : List Char)
    (h : natDigits n = c :: cs) (hpos : 0 < n) : c ≠ '0' :=
  (natDigitsAux_spec (n + 1) n (by omega)).2.2.1 c cs h hpos

/-! ## Round-trip: takeWhile over an all-satisfying prefix -/

theorem takeWhile_all_append {p : Char → Bool} : ∀ (l r : List Char),
    (∀ c ∈ l, p c = true) → (∀ c cs, r = c :: cs → p c = false) →
    (l ++ r).takeWhile p = l ∧ (l ++ r).dropWhile p = r
  | [], r, _, hr => by
    cases r with
    | nil => simp
    | cons c cs => simp [List.takeWhile_cons, List.dropWhile_cons, hr c cs rfl]
  | a :: l, r, hl, hr => by
    have ha := hl a (by simp)
    have ih := takeWhile_all_append l r (fun c hc => hl c (by simp [hc])) hr
    simp [List.takeWhile_cons, List.dropWhile_cons, ha, ih.1, ih.2]

/-! ## Round-trip: number tokens -/

theorem delimOk_facts {c : Char} {cs : List Char} (h : delimOk (c :: cs) = true) :
    c.isDigit = false ∧ c ≠ '.' ∧ c ≠ 'e' ∧ c ≠ 'E' := by
  simp only [delimOk, Bool.not_eq_true', Bool.or_eq_false_iff,
    decide_eq_false_iff_not] at h
  exact ⟨h.1.1.1, h.1.1.2, h.1.2, h.2⟩

theorem parseExpDigits_append (l r : List Char) (hne : l ≠ [])
    (hl : ∀ c ∈ l, c.isDigit = true)
    (hr : ∀ c cs, r = c :: cs → c.isDigit = false) :
    parseExpDigits (l ++ r) = some (digitsVal l, r) := by
  have h := takeWhile_all_append l r hl hr
  simp only [parseExpDigits, h.1, h.2, List.isEmpty_iff]
  rw [if_neg hne]

theorem parseIntPart_natDigits (n : Nat) (r : List Char)
    (hr : ∀ c cs, r = c :: cs → c.isDigit = false) :
    parseIntPart (natDigits n ++ r) = some (n, r) := by
  rcases Nat.eq_zero_or_pos n with h0 | hpos
  · subst h0
    show parseIntPart ('0' :: r) = some (0, r)
    simp [parseIntPart]
  · obtain ⟨c, cs, hcons⟩ : ∃ c cs, natDigits n = c :: cs := by
      cases hh : natDigits n with
      | nil => exact absurd hh (natDigits_ne_nil n)
      | cons c cs => exact ⟨c, cs, rfl⟩
    have hne0 := natDigits_head_ne_zero n c cs hcons hpos
    have ht := takeWhile_all_append (natDigits n) r (natDigits_all_digit n) hr
    rw [hcons, List.cons_append] at ht ⊢
    simp only [parseIntPart]
    rw [if_neg hne0]
    simp [ht.1, ht.2]
    rw [← hcons, natDigits_val]

theorem parseFrac_delim (r : List Char) (hr : delimOk r = true) :
    parseFrac r = some (0, 0, r) := by
  cases r with
  | nil => rfl
  | cons c cs =>
    obtain ⟨_, hdot, _, _⟩ := delimOk_facts hr
    simp [parseFrac, hdot]

theorem parseExp_delim (r : List Char) (hr : delimOk r = true) :
    parseExp r = some (0, r) := by
  cases r with
  | nil => rfl
  | cons c cs =>
    obtain ⟨_, _, he, hE⟩ := delimOk_facts hr
    simp only [parseExp]
    rw [if_neg (not_or.mpr ⟨he, hE⟩)]

theorem intChars_of_nonneg (m : Int) (h : 0 ≤ m) :
    intChars m = natDigits m.natAbs := by
  rw [intChars, if_neg (by omega)]

theorem intChars_of_neg (m : Int) (h : m < 0) :
    intChars m = '-' :: natDigits m.natAbs := by
  rw [intChars, if_pos h]

theorem natDigits_cons (n : Nat) :
    ∃ c cs, natDigits n = c :: cs ∧ c.isDigit = true := by
  cases hh : natDigits n with
  | nil => exact absurd hh (natDigits_ne_nil n)
  | cons c cs =>
    exact ⟨c, cs, rfl, natDigits_all_digit n c (by rw [hh]; simp)⟩

theorem delimOk_head_not_digit {rest : List Char} (h : delimOk rest = true) :
    ∀ c cs, rest = c :: cs → c.isDigit = false := by
  intro c cs hc
  subst hc
  exact (delimOk_facts h).1

theorem parseExp_echars (e : Int) (r : List Char)
    (hr : ∀ c cs, r = c :: cs → c.isDigit = false) :
    parseExp ('e' :: (intChars e ++ r)) = some (e, r) := by
  simp only [parseExp]
  rw [if_pos (Or.inl trivial)]
  by_cases hneg : e < 0
  · rw [intChars_of_neg e hneg]
    simp only [List.cons_append]
    rw [if_neg (by decide), if_pos trivial]
    rw [parseExpDigits_append _ _ (natDigits_ne_nil _) (natDigits_all_digit _) hr]
    simp only [Option.map_some', natDigits_val, Option.some.injEq, Prod.mk.injEq]
    exact ⟨by omega, trivial⟩
  · rw [intChars_of_nonneg e (by omega)]
    obtain ⟨c, cs, hcons, hdig⟩ := natDigits_cons e.natAbs
    rw [hcons, List.cons_append]
    simp only []
    rw [if_neg (ne_of_isDigit hdig (by decide)),
      if_neg (ne_of_isDigit hdig (by decide))]
    rw [← List.cons_append, ← hcons]
    rw [parseExpDigits_append _ _ (natDigits_ne_nil _) (natDigits_all_digit _) hr]
    simp only [Option.map_some', natDigits_val, Option.some.injEq, Prod.mk.injEq]
    exact ⟨by omega, trivial⟩

theorem parseNumCore_natDigits (neg : Bool) (n : Nat) (e : Int) (rest : List Char)
    (hrest : delimOk rest = true) :
    parseNumCore neg
      (natDigits n ++ ((if e = 0 then [] else 'e' :: intChars e) ++ rest)) =
      some (((if neg then -(n : Int) else (n : Int)), e), rest) := by
  have hD : ∀ c cs,
      (if e = 0 then [] else 'e' :: intChars e) ++ rest = c :: cs →
      c.isDigit = false := by
    intro c cs h
    by_cases he : e = 0
    · rw [if_pos he, List.nil_append] at h
      exact delimOk_head_not_digit hrest c cs h
    · rw [if_neg he, List.cons_append] at h
      cases h
      decide
  simp only [parseNumCore]
  rw [parseIntPart_natDigits n _ hD]
  simp only []
  have hfrac : parseFrac ((if e = 0 then [] else 'e' :: intChars e) ++ rest) =
      some (0, 0, (if e = 0 then [] else 'e' :: intChars e) ++ rest) := by
    by_cases he : e = 0
    · rw [if_pos he, List.nil_append]
      simpa [he] using parseFrac_delim rest hrest
    · rw [if_neg he, List.cons_append]
      simp only [parseFrac]
      rw [if_neg (by decide)]
  rw [hfrac]
  simp only []
  have hexp : parseExp ((if e = 0 then [] else 'e' :: intChars e) ++ rest) =
      some (e, rest) := by
    by_cases he : e = 0
    · rw [if_pos he, List.nil_append, he]
      exact parseExp_delim rest hrest
    · rw [if_neg he, List.cons_append]
      exact parseExp_echars e rest (delimOk_head_not_digit hrest)
  rw [hexp]
  simp only []
  cases neg <;> simp

theorem parseNum_roundtrip (m e : Int) (rest : List Char)
    (hrest : delimOk rest = true) :
    parseNum (numChars m e ++ rest) = some ((m, e), rest) := by
  by_cases hm : m < 0
  · have h1 : numChars m e ++ rest =
        '-' :: (natDigits m.natAbs ++
          ((if e = 0 then [] else 'e' :: intChars e) ++ rest)) := by
      simp [numChars, intChars_of_neg m hm, List.append_assoc]
    rw [h1]
    simp only [parseNum]
    rw [if_pos trivial]
    rw [parseNumCore_natDigits true m.natAbs e rest hrest]
    show some (((-(m.natAbs : Int)), e), rest) = some ((m, e), rest)
    rw [show -((m.natAbs : Int)) = m from by omega]
  · have h1 : numChars m e ++ rest =
        natDigits m.natAbs ++
          ((if e = 0 then [] else 'e' :: intChars e) ++ rest) := by
      simp [numChars, intChars_of_nonneg m (by omega), List.append_assoc]
    rw [h1]
    obtain ⟨c, cs, hcons, hdig⟩ := natDigits_cons m.natAbs
    rw [hcons, List.cons_append]
    simp only [parseNum]
    rw [if_neg (ne_of_isDigit hdig (by decide))]
    rw [← List.cons_append, ← hcons]
    rw [parseNumCore_natDigits false m.natAbs e rest hrest]
    show some ((((m.natAbs : Int)), e), rest) = some ((m, e), rest)
    rw [show ((m.natAbs : Int)) = m from by omega]

/-- The printed form of a number starts with a minus sign or a digit. -/
theorem numChars_shape (m e : Int) :
    ∃ c cs, numChars m e = c :: cs ∧ (c = '-' ∨ c.isDigit = true) := by
  by_cases hm : m < 0
  · refine ⟨'-', natDigits m.natAbs ++ (if e = 0 then [] else 'e' :: intChars e),
      ?_, Or.inl rfl⟩
    simp [numChars, intChars_of_neg m hm]
  · obtain ⟨c, cs, hcons, hdig⟩ := natDigits_cons m.natAbs
    refine ⟨c, cs ++ (if e = 0 then [] else 'e' :: intChars e), ?_, Or.inr hdig⟩
    simp [numChars, intChars_of_nonneg m (by omega), hcons]


/-! ## Round-trip: string literals -/

theorem hexDigitVal_digitChar {k : Nat} (h : k < 16) :
    hexDigitVal (Nat.digitChar k) = some k := by
  interval_cases k <;> decide

theorem parseStrBody_quote (r : List Char) :
    parseStrBody ('"' :: r) = some ([], r) := by
  conv_lhs => unfold parseStrBody
  rw [if_pos rfl]

theorem parseStrBody_esc (e u : Char) (r : List Char) (hu : e ≠ 'u')
    (hesc : unescape e = some u) :
    parseStrBody ('\\' :: e :: r) =
      (parseStrBody r).map (fun p => (u :: p.1, p.2)) := by
  conv_lhs => unfold parseStrBody
  rw [if_neg (by decide), if_pos rfl]
  simp only []
  rw [if_neg hu, hesc]
  simp only []
  cases parseStrBody r with
  | none => rfl
  | some p => rfl

theorem parseStrBody_escU (a b a2 b2 : Char) (va vb va2 vb2 : Nat)
    (r : List Char) (ha : hexDigitVal a = some va) (hb : hexDigitVal b = some vb)
    (ha2 : hexDigitVal a2 = some va2) (hb2 : hexDigitVal b2 = some vb2) :
    parseStrBody ('\\' :: 'u' :: a :: b :: a2 :: b2 :: r) =
      (parseStrBody r).map
        (fun p => (Char.ofNat (4096 * va + 256 * vb + 16 * va2 + vb2) :: p.1, p.2)) := by
  conv_lhs => unfold parseStrBody
  rw [if_neg (by decide), if_pos rfl]
  simp only []
  rw [if_pos trivial]
  rw [ha, hb, ha2, hb2]
  simp only []
  cases parseStrBody r with
  | none => rfl
  | some p => rfl

theorem parseStrBody_plain (c : Char) (r : List Char) (h1 : c ≠ '"')
    (h2 : c ≠ '\\') (h3 : ¬(c.toNat < 32)) :
    parseStrBody (c :: r) = (parseStrBody r).map (fun p => (c :: p.1, p.2)) := by
  conv_lhs => unfold parseStrBody
  rw [if_neg h1, if_neg h2, if_neg h3]
  cases parseStrBody r with
  | none => rfl
  | some p => rfl

/-- Round trip of one JSON string body: parsing the escaped form recovers
the original characters and the input after the closing quote. -/
theorem parseStrBody_escList : ∀ (s rest : List Char),
    parseStrBody (escList s ++ '"' :: rest) = some (s, rest)
  | [], rest => by
    rw [show escList [] ++ '"' :: rest = '"' :: rest from rfl]
    exact parseStrBody_quote rest
  | c :: s, rest => by
    have ih := parseStrBody_escList s rest
    rw [show escList (c :: s) = escChar c ++ escList s from rfl, List.append_assoc]
    rw [escChar]
    by_cases h1 : c = '"'
    · rw [if_pos h1, List.cons_append, List.cons_append, List.nil_append]
      rw [parseStrBody_esc '"' '"' _ (by decide) (by decide), ih, h1]
      rfl
    · rw [if_neg h1]
      by_cases h2 : c = '\\'
      · rw [if_pos h2, List.cons_append, List.cons_append, List.nil_append]
        rw [parseStrBody_esc '\\' '\\' _ (by decide) (by decide), ih, h2]
        rfl
      · rw [if_neg h2]
        by_cases h3 : c = Char.ofNat 8
        · rw [if_pos h3, List.cons_append, List.cons_append, List.nil_append]
          rw [parseStrBody_esc 'b' (Char.ofNat 8) _ (by decide) (by decide), ih, h3]
          rfl
        · rw [if_neg h3]
          by_cases h4 : c = Char.ofNat 12
          · rw [if_pos h4, List.cons_append, List.cons_append, List.nil_append]
            rw [parseStrBody_esc 'f' (Char.ofNat 12) _ (by decide) (by decide),
              ih, h4]
            rfl
          · rw [if_neg h4]
            by_cases h5 : c = '\n'
            · rw [if_pos h5, List.cons_append, List.cons_append, List.nil_append]
              rw [parseStrBody_esc 'n' '\n' _ (by decide) (by decide), ih, h5]
              rfl
            · rw [if_neg h5]
              by_cases h6 : c = '\r'
              · rw [if_pos h6, List.cons_append, List.cons_append,
                  List.nil_append]
                rw [parseStrBody_esc 'r' '\r' _ (by decide) (by decide), ih, h6]
                rfl
              · rw [if_neg h6]
                by_cases h7 : c = '\t'
                · rw [if_pos h7, List.cons_append, List.cons_append,
                    List.nil_append]
                  rw [parseStrBody_esc 't' '\t' _ (by decide) (by decide),
                    ih, h7]
                  rfl
                · rw [if_neg h7]
                  by_cases h8 : c.toNat < 32
                  · rw [if_pos h8]
                    simp only [List.cons_append, List.nil_append]
                    rw [parseStrBody_escU '0' '0'
                      (Nat.digitChar (c.toNat / 16)) (Nat.digitChar (c.toNat % 16))
                      0 0 (c.toNat / 16) (c.toNat % 16) _
                      (by decide) (by decide)
                      (hexDigitVal_digitChar (by omega))
                      (hexDigitVal_digitChar (by omega)), ih]
                    have hc : 4096 * 0 + 256 * 0 + 16 * (c.toNat / 16) +
                        c.toNat % 16 = c.toNat := by omega
                    rw [hc, Char.ofNat_toNat]
                    rfl
                  · rw [if_neg h8]
                    rw [List.cons_append, List.nil_append]
                    rw [parseStrBody_plain c _ h1 h2 h8, ih]
                    rfl

/-! ## Round-trip: whole values -/

theorem skipWs_cons (c : Char) (r : List Char) (h : jsonWs c = false) :
    skipWs (c :: r) = c :: r := by
  simp [skipWs, List.dropWhile_cons, h]

theorem jsize_pos (j : Json) : 1 ≤ jsize j := by
  cases j <;> simp [jsize]

theorem itemsFSize_pos (l : List Json) : 1 ≤ itemsFSize l := by
  cases l with
  | nil => simp [itemsFSize]
  | cons j l' => simp [itemsFSize]; omega

theorem itemsRSize_pos (l : List Json) : 1 ≤ itemsRSize l := by
  cases l with
  | nil => simp [itemsRSize]
  | cons j l' => simp [itemsRSize]; omega

theorem fieldsFSize_pos (fs : List (String × Json)) : 1 ≤ fieldsFSize fs := by
  cases fs with
  | nil => simp [fieldsFSize]
  | cons p fs' => cases p; simp [fieldsFSize]; omega

theorem fieldsRSize_pos (fs : List (String × Json)) : 1 ≤ fieldsRSize fs := by
  cases fs with
  | nil => simp [fieldsRSize]
  | cons p fs' => cases p; simp [fieldsRSize]; omega

/-- The first character of a printed value is never whitespace nor one of
the separators the parser looks for first. -/
theorem stringifyVal_head (j : Json) :
    ∃ c cs, stringifyVal j = c :: cs ∧ jsonWs c = false ∧
      c ≠ ']' ∧ c ≠ ',' ∧ c ≠ '\x7d' := by
  cases j with
  | null => exact ⟨'n', _, rfl, by decide, by decide, by decide, by decide⟩
  | bool b =>
    cases b with
    | false => exact ⟨'f', _, rfl, by decide, by decide, by decide, by decide⟩
    | true => exact ⟨'t', _, rfl, by decide, by decide, by decide, by decide⟩
  | num m e =>
    obtain ⟨c, cs, hcons, hc⟩ := numChars_shape m e
    refine ⟨c, cs, by rw [show stringifyVal (Json.num m e) = numChars m e from rfl,
      hcons], ?_, ?_, ?_, ?_⟩ <;> rcases hc with h | h
    · subst h; decide
    · exact jsonWs_of_isDigit h
    · subst h; decide
    · exact ne_of_isDigit h (by decide)
    · subst h; decide
    · exact ne_of_isDigit h (by decide)
    · subst h; decide
    · exact ne_of_isDigit h (by decide)
  | str s => exact ⟨'"', _, rfl, by decide, by decide, by decide, by decide⟩
  | arr l => exact ⟨'[', _, rfl, by decide, by decide, by decide, by decide⟩
  | obj fs => exact ⟨'\x7b', _, rfl, by decide, by decide, by decide, by decide⟩

theorem delimOk_moreItems (l : List Json) (rest : List Char) :
    delimOk (stringifyMoreItems l ++ ']' :: rest) = true := by
  cases l with
  | nil => rfl
  | cons j l' => rfl

theorem delimOk_moreFields (fs : List (String × Json)) (rest : List Char) :
    delimOk (stringifyMoreFields fs ++ '\x7d' :: rest) = true := by
  cases fs with
  | nil => rfl
  | cons p fs' => rfl

/-- Round trip of the printer and parser: parsing a printed value (followed
by any delimiter-safe continuation) recovers exactly that value, given fuel
at least the structural size; likewise for printed item and field sequences
followed by their closing bracket. -/
theorem parse_stringify_roundtrip : ∀ fuel : Nat,
    (∀ j rest, jsize j ≤ fuel → delimOk rest = true →
      parseVal fuel (stringifyVal j ++ rest) = some (j, rest)) ∧
    (∀ l rest, itemsFSize l ≤ fuel →
      parseItemsFirst fuel (stringifyItems l ++ ']' :: rest) = some (l, rest)) ∧
    (∀ l rest, itemsRSize l ≤ fuel →
      parseItemsRest fuel (stringifyMoreItems l ++ ']' :: rest) = some (l, rest)) ∧
    (∀ fs rest, fieldsFSize fs ≤ fuel →
      parseFieldsFirst fuel (stringifyFields fs ++ '\x7d' :: rest) = some (fs, rest)) ∧
    (∀ fs rest, fieldsRSize fs ≤ fuel →
      parseFieldsRest fuel (stringifyMoreFields fs ++ '\x7d' :: rest) =
        some (fs, rest)) := by
  intro fuel
  induction fuel with
  | zero =>
    exact ⟨fun j rest h _ => absurd h (by have := jsize_pos j; omega),
           fun l rest h => absurd h (by have := itemsFSize_pos l; omega),
           fun l rest h => absurd h (by have := itemsRSize_pos l; omega),
           fun fs rest h => absurd h (by have := fieldsFSize_pos fs; omega),
           fun fs rest h => absurd h (by have := fieldsRSize_pos fs; omega)⟩
  | succ f ih =>
    obtain ⟨ihV, ihIF, ihIR, ihFF, ihFR⟩ := ih
    refine ⟨?_, ?_, ?_, ?_, ?_⟩
    · intro j rest hsize hdelim
      cases j with
      | null => rfl
      | bool b =>
        cases b with
        | false => rfl
        | true => rfl
      | num m e =>
        obtain ⟨c, cs, hcons, hc⟩ := numChars_shape m e
        have hws : jsonWs c = false := by
          rcases hc with h | h
          · subst h; decide
          · exact jsonWs_of_isDigit h
        have hq : c ≠ '"' := by
          rcases hc with h | h
          · subst h; decide
          · exact ne_of_isDigit h (by decide)
        have hbr : c ≠ '[' := by
          rcases hc with h | h
          · subst h; decide
          · exact ne_of_isDigit h (by decide)
        have hbc : c ≠ '\x7b' := by
          rcases hc with h | h
          · subst h; decide
          · exact ne_of_isDigit h (by decide)
        have hn : c ≠ 'n' := by
          rcases hc with h | h
          · subst h; decide
          · exact ne_of_isDigit h (by decide)
        have ht : c ≠ 't' := by
          rcases hc with h | h
          · subst h; decide
          · exact ne_of_isDigit h (by decide)
        have hf : c ≠ 'f' := by
          rcases hc with h | h
          · subst h; decide
          · exact ne_of_isDigit h (by decide)
        rw [show stringifyVal (Json.num m e) = numChars m e from rfl, hcons,
          List.cons_append]
        conv_lhs => unfold parseVal
        rw [skipWs_cons _ _ hws]
        simp only []
        rw [if_neg hq, if_neg hbr, if_neg hbc, if_neg hn, if_neg ht, if_neg hf]
        rw [← List.cons_append, ← hcons, parseNum_roundtrip m e rest hdelim]
        rfl
      | str s =>
        rw [show stringifyVal (Json.str s) ++ rest =
            '"' :: (escList s.data ++ ('"' :: rest)) from by
          rw [show stringifyVal (Json.str s) =
            '"' :: (escList s.data ++ ['"']) from rfl]
          simp [List.append_assoc]]
        rw [show parseVal (f + 1) ('"' :: (escList s.data ++ ('"' :: rest))) =
            (parseStrBody (escList s.data ++ ('"' :: rest))).map
              (fun p => (Json.str (String.mk p.1), p.2)) from rfl]
        rw [parseStrBody_escList s.data rest]
        rfl
      | arr l =>
        rw [show stringifyVal (Json.arr l) ++ rest =
            '[' :: (stringifyItems l ++ (']' :: rest)) from by
          rw [show stringifyVal (Json.arr l) =
            '[' :: (stringifyItems l ++ [']']) from rfl]
          simp [List.append_assoc]]
        rw [show parseVal (f + 1) ('[' :: (stringifyItems l ++ (']' :: rest))) =
            (parseItemsFirst f (stringifyItems l ++ (']' :: rest))).map
              (fun p => (Json.arr p.1, p.2)) from rfl]
        have hsz : itemsFSize l ≤ f := by
          have he : jsize (Json.arr l) = 1 + itemsFSize l := rfl
          omega
        rw [ihIF l rest hsz]
        rfl
      | obj fs =>
        rw [show stringifyVal (Json.obj fs) ++ rest =
            '\x7b' :: (stringifyFields fs ++ ('\x7d' :: rest)) from by
          rw [show stringifyVal (Json.obj fs) =
            '\x7b' :: (stringifyFields fs ++ ['\x7d']) from rfl]
          simp [List.append_assoc]]
        rw [show parseVal (f + 1)
            ('\x7b' :: (stringifyFields fs ++ ('\x7d' :: rest))) =
            (parseFieldsFirst f (stringifyFields fs ++ ('\x7d' :: rest))).map
              (fun p => (Json.obj p.1, p.2)) from rfl]
        have hsz : fieldsFSize fs ≤ f := by
          have he : jsize (Json.obj fs) = 1 + fieldsFSize fs := rfl
          omega
        rw [ihFF fs rest hsz]
        rfl
    · intro l rest hsize
      cases l with
      | nil => rfl
      | cons j l' =>
        obtain ⟨c, cs, hcons, hws, hne1, hne2, hne3⟩ := stringifyVal_head j
        have he : itemsFSize (j :: l') = 1 + jsize j + itemsRSize l' := rfl
        have hszj : jsize j ≤ f := by
          have := itemsRSize_pos l'
          omega
        have hszl : itemsRSize l' ≤ f := by
          have := jsize_pos j
          omega
        rw [show stringifyItems (j :: l') ++ ']' :: rest =
            stringifyVal j ++ (stringifyMoreItems l' ++ ']' :: rest) from by
          rw [show stringifyItems (j :: l') =
            stringifyVal j ++ stringifyMoreItems l' from rfl]
          simp [List.append_assoc]]
        rw [hcons, List.cons_append]
        conv_lhs => unfold parseItemsFirst
        rw [skipWs_cons _ _ hws]
        simp only []
        rw [if_neg hne1]
        rw [← List.cons_append, ← hcons]
        rw [ihV j (stringifyMoreItems l' ++ ']' :: rest) hszj
          (delimOk_moreItems l' rest)]
        simp only []
        rw [ihIR l' rest hszl]
    · intro l rest hsize
      cases l with
      | nil => rfl
      | cons j l' =>
        have he : itemsRSize (j :: l') = 1 + jsize j + itemsRSize l' := rfl
        have hszj : jsize j ≤ f := by
          have := itemsRSize_pos l'
          omega
        have hszl : itemsRSize l' ≤ f := by
          have := jsize_pos j
          omega
        rw [show stringifyMoreItems (j :: l') ++ ']' :: rest =
            ',' :: (stringifyVal j ++ (stringifyMoreItems l' ++ ']' :: rest)) from by
          rw [show stringifyMoreItems (j :: l') =
            ',' :: (stringifyVal j ++ stringifyMoreItems l') from rfl]
          simp [List.append_assoc]]
        rw [show parseItemsRest (f + 1)
            (',' :: (stringifyVal j ++ (stringifyMoreItems l' ++ ']' :: rest))) =
            (match parseVal f
                (stringifyVal j ++ (stringifyMoreItems l' ++ ']' :: rest)) with
             | none => none
             | some (v, r1) =>
               match parseItemsRest f r1 with
               | none => none
               | some (vs, r2) => some (v :: vs, r2)) from rfl]
        rw [ihV j (stringifyMoreItems l' ++ ']' :: rest) hszj
          (delimOk_moreItems l' rest)]
        simp only []
        rw [ihIR l' rest hszl]
    · intro fs rest hsize
      cases fs with
      | nil => rfl
      | cons p fs' =>
        obtain ⟨k, v⟩ := p
        have he : fieldsFSize ((k, v) :: fs') = 1 + jsize v + fieldsRSize fs' := rfl
        have hszv : jsize v ≤ f := by
          have := fieldsRSize_pos fs'
          omega
        have hszf : fieldsRSize fs' ≤ f := by
          have := jsize_pos v
          omega
        rw [show stringifyFields ((k, v) :: fs') ++ '\x7d' :: rest =
            '"' :: (escList k.data ++ ('"' :: (':' :: (stringifyVal v ++
              (stringifyMoreFields fs' ++ '\x7d' :: rest))))) from by
          rw [show stringifyFields ((k, v) :: fs') =
            '"' :: (escList k.data ++ '"' :: ':' ::
              (stringifyVal v ++ stringifyMoreFields fs')) from rfl]
          simp [List.append_assoc]]
        rw [show parseFieldsFirst (f + 1)
            ('"' :: (escList k.data ++ ('"' :: (':' :: (stringifyVal v ++
              (stringifyMoreFields fs' ++ '\x7d' :: rest)))))) =
            (match parseStrBody (escList k.data ++ ('"' :: (':' ::
                (stringifyVal v ++
                  (stringifyMoreFields fs' ++ '\x7d' :: rest))))) with
             | none => none
             | some (k2, r1) =>
               match skipWs r1 with
               | ':' :: r2 =>
                 match parseVal f r2 with
                 | none => none
                 | some (v2, r3) =>
                   match parseFieldsRest f r3 with
                   | none => none
                   | some (fs2, r4) => some ((String.mk k2, v2) :: fs2, r4)
               | _ => none) from rfl]
        rw [parseStrBody_escList k.data (':' :: (stringifyVal v ++
          (stringifyMoreFields fs' ++ '\x7d' :: rest)))]
        simp only []
        rw [skipWs_cons _ _ (by decide)]
        simp only []
        rw [ihV v (stringifyMoreFields fs' ++ '\x7d' :: rest) hszv
          (delimOk_moreFields fs' rest)]
        simp only []
        rw [ihFR fs' rest hszf]
    · intro fs rest hsize
      cases fs with
      | nil => rfl
      | cons p fs' =>
        obtain ⟨k, v⟩ := p
        have he : fieldsRSize ((k, v) :: fs') = 1 + jsize v + fieldsRSize fs' := rfl
        have hszv : jsize v ≤ f := by
          have := fieldsRSize_pos fs'
          omega
        have hszf : fieldsRSize fs' ≤ f := by
          have := jsize_pos v
          omega
        rw [show stringifyMoreFields ((k, v) :: fs') ++ '\x7d' :: rest =
            ',' :: ('"' :: (escList k.data ++ ('"' :: (':' :: (stringifyVal v ++
              (stringifyMoreFields fs' ++ '\x7d' :: rest)))))) from by
          rw [show stringifyMoreFields ((k, v) :: fs') =
            ',' :: '"' :: (escList k.data ++ '"' :: ':' ::
              (stringifyVal v ++ stringifyMoreFields fs')) from rfl]
          simp [List.append_assoc]]
        rw [show parseFieldsRest (f + 1)
            (',' :: ('"' :: (escList k.data ++ ('"' :: (':' :: (stringifyVal v ++
              (stringifyMoreFields fs' ++ '\x7d' :: rest))))))) =
            (match parseStrBody (escList k.data ++ ('"' :: (':' ::
                (stringifyVal v ++
                  (stringifyMoreFields fs' ++ '\x7d' :: rest))))) with
             | none => none
             | some (k2, r2) =>
               match skipWs r2 with
               | ':' :: r3 =>
                 match parseVal f r3 with
                 | none => none
                 | some (v2, r4) =>
                   match parseFieldsRest f r4 with
                   | none => none
                   | some (fs2, r5) => some ((String.mk k2, v2) :: fs2, r5)
               | _ => none) from rfl]
        rw [parseStrBody_escList k.data (':' :: (stringifyVal v ++
          (stringifyMoreFields fs' ++ '\x7d' :: rest)))]
        simp only []
        rw [skipWs_cons _ _ (by decide)]
        simp only []
        rw [ihV v (stringifyMoreFields fs' ++ '\x7d' :: rest) hszv
          (delimOk_moreFields fs' rest)]
        simp only []
        rw [ihFR fs' rest hszf]

/-! ## Round-trip: the parser fuel in `jsonParse` is ample -/

mutual

theorem jsize_le : ∀ j : Json, jsize j ≤ 2 * (stringifyVal j).length
  | Json.null => by decide
  | Json.bool b => by cases b <;> decide
  | Json.num m e => by
    obtain ⟨c, cs, hcons, _⟩ := numChars_shape m e
    rw [show jsize (Json.num m e) = 1 from rfl,
      show stringifyVal (Json.num m e) = numChars m e from rfl, hcons]
    simp
    omega
  | Json.str s => by
    rw [show jsize (Json.str s) = 1 from rfl,
      show stringifyVal (Json.str s) = '"' :: (escList s.data ++ ['"']) from rfl]
    simp [List.length_append]
    omega
  | Json.arr l => by
    have h := itemsFSize_le l
    rw [show jsize (Json.arr l) = 1 + itemsFSize l from rfl,
      show stringifyVal (Json.arr l) = '[' :: (stringifyItems l ++ [']']) from rfl]
    simp only [List.length_cons, List.length_append, List.length_singleton]
    omega
  | Json.obj fs => by
    have h := fieldsFSize_le fs
    rw [show jsize (Json.obj fs) = 1 + fieldsFSize fs from rfl,
      show stringifyVal (Json.obj fs) =
        '\x7b' :: (stringifyFields fs ++ ['\x7d']) from rfl]
    simp only [List.length_cons, List.length_append, List.length_singleton]
    omega

theorem itemsFSize_le : ∀ l : List Json,
    itemsFSize l ≤ 2 * (stringifyItems l).length + 2
  | [] => by
    rw [show itemsFSize ([] : List Json) = 1 from rfl,
      show stringifyItems [] = [] from rfl]
    simp
  | j :: l' => by
    have h1 := jsize_le j
    have h2 := itemsRSize_le l'
    rw [show itemsFSize (j :: l') = 1 + jsize j + itemsRSize l' from rfl,
      show stringifyItems (j :: l') =
        stringifyVal j ++ stringifyMoreItems l' from rfl]
    simp only [List.length_append]
    omega

theorem itemsRSize_le : ∀ l : List Json,
    itemsRSize l ≤ 2 * (stringifyMoreItems l).length + 1
  | [] => by
    rw [show itemsRSize ([] : List Json) = 1 from rfl,
      show stringifyMoreItems [] = [] from rfl]
    simp
  | j :: l' => by
    have h1 := jsize_le j
    have h2 := itemsRSize_le l'
    rw [show itemsRSize (j :: l') = 1 + jsize j + itemsRSize l' from rfl,
      show stringifyMoreItems (j :: l') =
        ',' :: (stringifyVal j ++ stringifyMoreItems l') from rfl]
    simp only [List.length_cons, List.length_append]
    omega

theorem fieldsFSize_le : ∀ fs : List (String × Json),
    fieldsFSize fs ≤ 2 * (stringifyFields fs).length + 2
  | [] => by
    rw [show fieldsFSize ([] : List (String × Json)) = 1 from rfl,
      show stringifyFields [] = [] from rfl]
    simp
  | (k, v) :: fs' => by
    have h1 := jsize_le v
    have h2 := fieldsRSize_le fs'
    rw [show fieldsFSize ((k, v) :: fs') = 1 + jsize v + fieldsRSize fs' from rfl,
      show stringifyFields ((k, v) :: fs') =
        '"' :: (escList k.data ++ '"' :: ':' ::
          (stringifyVal v ++ stringifyMoreFields fs')) from rfl]
    simp only [List.length_cons, List.length_append]
    omega

theorem fieldsRSize_le : ∀ fs : List (String × Json),
    fieldsRSize fs ≤ 2 * (stringifyMoreFields fs).length + 1
  | [] => by
    rw [show fieldsRSize ([] : List (String × Json)) = 1 from rfl,
      show stringifyMoreFields [] = [] from rfl]
    simp
  | (k, v) :: fs' => by
    have h1 := jsize_le v
    have h2 := fieldsRSize_le fs'
    rw [show fieldsRSize ((k, v) :: fs') = 1 + jsize v + fieldsRSize fs' from rfl,
      show stringifyMoreFields ((k, v) :: fs') =
        ',' :: '"' :: (escList k.data ++ '"' :: ':' ::
          (stringifyVal v ++ stringifyMoreFields fs')) from rfl]
    simp only [List.length_cons, List.length_append]
    omega

end

/-! ## C6 — Study Store round trip -/

/-- C6: loading immediately after saving returns the same records, in the
same order; an absent key loads as the empty collection. -/
theorem store_roundtrip (records : List Json) :
    loadCollection (some (saveCollection records)) = records ∧
    loadCollection none = [] := by
  refine ⟨?_, rfl⟩
  have hfuel : jsize (Json.arr records) ≤
      2 * (stringifyVal (Json.arr records)).length + 2 := by
    have := jsize_le (Json.arr records)
    omega
  have h := (parse_stringify_roundtrip
      (2 * (stringifyVal (Json.arr records)).length + 2)).1
    (Json.arr records) [] hfuel rfl
  rw [List.append_nil] at h
  unfold loadCollection saveCollection jsonParse
  simp only []
  rw [show (jsonStringify (Json.arr records)).data =
    stringifyVal (Json.arr records) from rfl]
  rw [h]
  rfl
